import Mathlib

/-!
Verification of the `shift` task-time-tracking engine.

The event-sourced core is embedded shallowly:
* `TaskEvent`, `TaskSession`, `TaskState` mirror the data model (the record
  types themselves are absent from the provided sources; their fields follow
  the spec, section 3, and the way the command modules use them).
* the command handlers `start`, `stop`, `pause`, `resume`, `undo`, `sessions`
  and the CLI-level `switch` are translated from
  `crates/shift-lib/src/commands/{start,stop,pause,resume via pause.rs,undo,sessions}.rs`
  and `crates/core/main.rs`.
* the SQLite store is modelled as the list of inserted rows in insertion
  order together with a counter supplying fresh uuids; timestamps are `Int`.

Namespace `Shift` holds the whole development.
-/

namespace Shift

/-- The four event states of the task state machine. -/
inductive TaskState where
  | Started
  | Paused
  | Resumed
  | Stopped
deriving DecidableEq, Repr

/-- One immutable row of the `task_events` table: unique event id, task name,
session id grouping the events of one lifecycle, state tag and timestamp.
The record type itself is absent from the provided sources; fields are
modelled from the spec, section 3.  Uuids are modelled as `Nat`,
timestamps as `Int`. -/
structure TaskEvent where
  id : Nat
  name : String
  session : Nat
  state : TaskState
  time : Int
deriving DecidableEq, Repr

/-- Mirror of `TaskEvent::new`: the caller supplies the fresh uuid `nid`,
which is used for the event id and, when no session is given, for the
session id; the time defaults to the current clock value `now`. -/
def TaskEvent.make (nid : Nat) (name : String) (session : Option Nat)
    (time : Option Int) (now : Int) (state : TaskState) : TaskEvent :=
  ⟨nid, name, session.getD nid, state, time.getD now⟩

/-- A derived session: its id, the task name, and its events.
Modelled from the spec, section 3 (the type is absent from the sources). -/
structure TaskSession where
  id : Nat
  name : String
  events : List TaskEvent
deriving DecidableEq, Repr

/-- Keep the first occurrence of every element, in order of first occurrence. -/
def dedupFirst [DecidableEq α] : List α → List α
  | [] => []
  | a :: as => a :: (dedupFirst as).filter (fun b => b ≠ a)

/-- The `(name, session)` keys appearing in a log, in order of first
occurrence. -/
def sessionKeys (log : List TaskEvent) : List (String × Nat) :=
  dedupFirst (log.map (fun e => (e.name, e.session)))

/-- All events of a log belonging to the group identified by key `k`. -/
def sessionEvents (log : List TaskEvent) (k : String × Nat) : List TaskEvent :=
  log.filter (fun e => e.name = k.1 ∧ e.session = k.2)

/-- Group a flat event log into sessions keyed by `(name, session_id)`,
in order of first occurrence, each carrying its events in log order. -/
def allSessions (log : List TaskEvent) : List TaskSession :=
  (sessionKeys log).map (fun k => ⟨k.2, k.1, sessionEvents log k⟩)

/-- A session is stopped when its event set contains a `Stopped` event. -/
def TaskSession.stoppedB (s : TaskSession) : Bool :=
  s.events.any (fun e => e.state = TaskState.Stopped)

/-- The event of maximal time (the later one on ties in list order). -/
def latestEvent (events : List TaskEvent) : Option TaskEvent :=
  events.foldl
    (fun acc e =>
      match acc with
      | none => some e
      | some a => if a.time ≤ e.time then some e else some a)
    none

/-- Modelled from the spec, section 3: a session is paused when its most
recent event (by time) is `Paused`.  (`ShiftDb::is_paused` is absent from
the provided sources.) -/
def TaskSession.is_paused (s : TaskSession) : Bool :=
  match latestEvent s.events with
  | some e => e.state = TaskState.Paused
  | none => false

/-- Modelled from the spec, sections 3 and 4.2: the ongoing sessions are the
groups of the log lacking a `Stopped` event.  (`ShiftDb::ongoing_sessions`
is absent from the provided sources; groups are listed in input order.) -/
def ongoing_sessions (log : List TaskEvent) : List TaskSession :=
  (allSessions log).filter (fun s => !s.stoppedB)

/-- The number of ongoing sessions carrying a given task name. -/
def countOngoingNamed (log : List TaskEvent) (n : String) : Nat :=
  (ongoing_sessions log).countP (fun s => s.name = n)

/-- The persistent store: the `task_events` rows in insertion order plus a
counter supplying fresh uuids. -/
structure ShiftDb where
  log : List TaskEvent
  nextId : Nat
deriving DecidableEq, Repr

/-- `StartError` from `commands/start.rs`. -/
inductive StartError where
  | Ongoing (name : String)
  | SqlError (msg : String)
deriving DecidableEq, Repr

/-- `StartOpts` from `commands/start.rs`. -/
structure StartOpts where
  uid : Option String := none
  start_time : Option Int := none
deriving Repr

/-- Result of running `start`, including the `expect` panic on a missing
task name. -/
inductive StartOutcome where
  | panicked (msg : String)
  | ok (e : TaskEvent) (db : ShiftDb)
  | err (e : StartError)
deriving DecidableEq, Repr

/-- Body of `start` after the name has been extracted, translated from
`commands/start.rs`: fail with `Ongoing` when an ongoing session with this
name exists, else insert a `Started` event with a fresh session id. -/
def startCore (s : ShiftDb) (name : String) (start_time : Option Int)
    (now : Int) : Except StartError (TaskEvent × ShiftDb) :=
  let ongoing := (ongoing_sessions s.log).filter (fun ses => ses.name = name)
  let event := TaskEvent.make s.nextId name none start_time now TaskState.Started
  if ongoing.length > 0 then
    Except.error (StartError.Ongoing event.name)
  else
    Except.ok (event, ⟨s.log ++ [event], s.nextId + 1⟩)

/-- `start` from `commands/start.rs`; `args.uid.clone().expect(...)` is
modelled as the `panicked` outcome. -/
def start (s : ShiftDb) (args : StartOpts) (now : Int) : StartOutcome :=
  match args.uid with
  | none => StartOutcome.panicked "Required to specify task name"
  | some name =>
      match startCore s name args.start_time now with
      | Except.ok (e, db) => StartOutcome.ok e db
      | Except.error er => StartOutcome.err er

/-- `Error` from `commands/stop.rs`. -/
inductive StopError where
  | MultipleSessions (sessions : List TaskSession)
  | UpdateError (count : Nat) (task : TaskEvent)
  | NoTasks
deriving DecidableEq, Repr

/-- `StopOpts` from `commands/stop.rs`. -/
structure StopOpts where
  uid : Option String := none
  all : Bool := false
  stop_time : Option Int := none
deriving Repr

/-- One inserted event per listed session, sharing state and time, each with
a fresh uuid (the body of the `for session in ongoing` insert loops). -/
def mkBatch (nid : Nat) (state : TaskState) (t : Int) :
    List TaskSession → List TaskEvent
  | [] => []
  | ses :: rest => ⟨nid, ses.name, ses.id, state, t⟩ :: mkBatch (nid + 1) state t rest

/-- `stop` from `commands/stop.rs`. -/
def stop (s : ShiftDb) (args : StopOpts) (now : Int) : Except StopError ShiftDb :=
  let ongoing := ongoing_sessions s.log
  match args.uid with
  | some name =>
      let ongoing_with_uid := ongoing.filter
        (fun ses => ses.name = name ∨ (toString ses.id).endsWith name)
      match ongoing_with_uid with
      | [] => Except.error StopError.NoTasks
      | [session] =>
          let stopEv := TaskEvent.make s.nextId session.name (some session.id)
            args.stop_time now TaskState.Stopped
          Except.ok ⟨s.log ++ [stopEv], s.nextId + 1⟩
      | more => Except.error (StopError.MultipleSessions more)
  | none =>
      if ongoing.length == 1 || (args.all && !ongoing.isEmpty) then
        let t := args.stop_time.getD now
        Except.ok ⟨s.log ++ mkBatch s.nextId TaskState.Stopped t ongoing,
          s.nextId + ongoing.length⟩
      else
        match ongoing with
        | [] => Except.error StopError.NoTasks
        | _ => Except.error (StopError.MultipleSessions ongoing)

/-- `PauseResumeError` from `commands/pause.rs`. -/
inductive PauseResumeError where
  | MultipleSessions (sessions : List TaskSession)
  | MultiplePauses (sessions : List TaskSession)
  | UpdateError (session : TaskSession)
  | SqlError (msg : String)
  | NoTasks
  | NoPauses
deriving DecidableEq, Repr

/-- `Config` from `lib.rs` as the pause/resume/sessions option record
(`from` is a Lean keyword, hence `fromT`/`toT`). -/
structure Config where
  uid : Option String := none
  fromT : Option Int := none
  toT : Option Int := none
  tasks : List String := []
  count : Nat := 0
  all : Bool := false
  start_time : Option Int := none
deriving Repr

/-- `pause` from `commands/pause.rs`: candidates are the non-paused ongoing
sessions; pause events carry the current clock time. -/
def pause (s : ShiftDb) (args : Config) (now : Int) :
    Except PauseResumeError ShiftDb :=
  let ongoing := (ongoing_sessions s.log).filter (fun ses => !ses.is_paused)
  match args.uid with
  | some uid =>
      let tasks_with_uid := ongoing.filter
        (fun ses => ses.name = uid ∨ (toString ses.id).endsWith uid)
      match tasks_with_uid with
      | [] => Except.error PauseResumeError.NoTasks
      | [t] =>
          Except.ok ⟨s.log ++ [⟨s.nextId, t.name, t.id, TaskState.Paused, now⟩],
            s.nextId + 1⟩
      | more => Except.error (PauseResumeError.MultipleSessions more)
  | none =>
      if ongoing.length == 1 || args.all then
        Except.ok ⟨s.log ++ mkBatch s.nextId TaskState.Paused now ongoing,
          s.nextId + ongoing.length⟩
      else
        match ongoing with
        | [] => Except.error PauseResumeError.NoTasks
        | _ => Except.error (PauseResumeError.MultipleSessions ongoing)

/-- `resume` from `commands/pause.rs`: candidates are the paused ongoing
sessions; with no identifier, zero candidates give `NoPauses` and several
give `MultiplePauses`. -/
def resume (s : ShiftDb) (args : Config) (now : Int) :
    Except PauseResumeError ShiftDb :=
  let task_pauses := (ongoing_sessions s.log).filter (fun ses => ses.is_paused)
  match args.uid with
  | some name =>
      let tasks_with_uid := task_pauses.filter
        (fun ses => ses.name = name ∨ (toString ses.id).endsWith name)
      match tasks_with_uid with
      | [] => Except.error PauseResumeError.NoTasks
      | [t] =>
          Except.ok ⟨s.log ++ [⟨s.nextId, t.name, t.id, TaskState.Resumed, now⟩],
            s.nextId + 1⟩
      | more => Except.error (PauseResumeError.MultipleSessions more)
  | none =>
      if task_pauses.length == 1 || args.all then
        Except.ok ⟨s.log ++ mkBatch s.nextId TaskState.Resumed now task_pauses,
          s.nextId + task_pauses.length⟩
      else
        match task_pauses with
        | [] => Except.error PauseResumeError.NoPauses
        | _ => Except.error (PauseResumeError.MultiplePauses task_pauses)

/-- The maximum timestamp of a log, `none` on the empty log
(`SELECT MAX(time) FROM task_events`). -/
def maxTime : List TaskEvent → Option Int
  | [] => none
  | e :: rest =>
      match maxTime rest with
      | none => some e.time
      | some m => some (max e.time m)

/-- The log after `undo`: `DELETE FROM task_events WHERE time = (SELECT
MAX(time) FROM task_events)`. -/
def undoLog (log : List TaskEvent) : List TaskEvent :=
  match maxTime log with
  | none => log
  | some m => log.filter (fun e => e.time ≠ m)

/-- `undo` from `commands/undo.rs`: delete every event carrying the maximal
timestamp, returning the removed row count. -/
def undo (s : ShiftDb) : ShiftDb × Nat :=
  match maxTime s.log with
  | none => (s, 0)
  | some m =>
      (⟨s.log.filter (fun e => e.time ≠ m), s.nextId⟩,
        (s.log.filter (fun e => e.time = m)).length)

/-- `Commands::Switch` from `crates/core/main.rs`: run `stop` with no
identifier, `all` left at its default `false` and an explicit shared
timestamp, then `start` the new name at that same timestamp; on a stop
error the process exits before starting. -/
def switch (s : ShiftDb) (name : String) (now : Int) :
    Except (StopError ⊕ StartError) ShiftDb :=
  match stop s { uid := none, all := false, stop_time := some now } now with
  | Except.error e => Except.error (Sum.inl e)
  | Except.ok s1 =>
      match startCore s1 name (some now) now with
      | Except.error e => Except.error (Sum.inr e)
      | Except.ok (_, s2) => Except.ok s2

/-- `true` when the event time lies inside the optional open interval
(`time > from` and `time < to`). -/
def inWindow (e : TaskEvent) (fromT toT : Option Int) : Bool :=
  (match fromT with
   | some f => f < e.time
   | none => true) &&
  (match toT with
   | some t => e.time < t
   | none => true)

/-- Insert an event into a list sorted by time descending. -/
def insertDesc (e : TaskEvent) : List TaskEvent → List TaskEvent
  | [] => [e]
  | x :: xs => if e.time ≤ x.time then x :: insertDesc e xs else e :: x :: xs

/-- Sort events by time descending (`ORDER BY time DESC`). -/
def sortTimeDesc : List TaskEvent → List TaskEvent
  | [] => []
  | e :: rest => insertDesc e (sortTimeDesc rest)

/-- The sort key of `sessions`: the time of the first stored event of the
session (the newest one, events being listed newest first there). -/
def firstTime (s : TaskSession) : Int :=
  match s.events with
  | [] => 0
  | e :: _ => e.time

/-- Insert a session into a list sorted by `firstTime` descending. -/
def insertSessDesc (s : TaskSession) : List TaskSession → List TaskSession
  | [] => [s]
  | x :: xs =>
      if firstTime s ≤ firstTime x then x :: insertSessDesc s xs
      else s :: x :: xs

/-- Sort sessions by `firstTime` descending (the `sort_by` call). -/
def sessSortDesc : List TaskSession → List TaskSession
  | [] => []
  | s :: rest => insertSessDesc s (sessSortDesc rest)

/-- The grouped, ordered session list of `sessions` before the name filter
and cap: window-filtered events, newest first, grouped by
`(name, session_id)` and sorted by newest event time descending. -/
def groupedSessions (s : ShiftDb) (args : Config) : List TaskSession :=
  sessSortDesc (allSessions (sortTimeDesc
    (s.log.filter (fun e => inWindow e args.fromT args.toT))))

/-- `sessions` from `commands/sessions.rs`: group, then apply the name
filter and the result cap (`take count` unless `all`). -/
def sessions (s : ShiftDb) (args : Config) : List TaskSession :=
  let sorted := groupedSessions s args
  if args.tasks ≠ [] then
    let filtered := sorted.filter (fun t => args.tasks.contains t.name)
    if args.all then filtered else filtered.take args.count
  else if args.all then sorted
  else sorted.take args.count

/-- Modelled from the spec, section 4.2 (`get_times` is absent from the
provided sources): walk a session's events oldest to newest keeping
`elapsed` and `paused` accumulators and the previous event; a run interval
ends at a `Paused` or `Stopped`, a pause interval ends at a `Resumed` or
`Stopped`, an open trailing interval is closed at `now`; any other
adjacency is a corrupt session, reported as `none`. -/
def get_times (events : List TaskEvent) (now : Int) : Option (Int × Int) :=
  let step : Option (Int × Int × Option TaskEvent) → TaskEvent →
      Option (Int × Int × Option TaskEvent) :=
    fun acc e =>
      match acc with
      | none => none
      | some (elapsed, paused, prev) =>
          match prev with
          | none =>
              match e.state with
              | TaskState.Started => some (elapsed, paused, some e)
              | _ => none
          | some p =>
              match p.state, e.state with
              | TaskState.Started, TaskState.Paused =>
                  some (elapsed + (e.time - p.time), paused, some e)
              | TaskState.Resumed, TaskState.Paused =>
                  some (elapsed + (e.time - p.time), paused, some e)
              | TaskState.Started, TaskState.Stopped =>
                  some (elapsed + (e.time - p.time), paused, some e)
              | TaskState.Resumed, TaskState.Stopped =>
                  some (elapsed + (e.time - p.time), paused, some e)
              | TaskState.Paused, TaskState.Resumed =>
                  some (elapsed, paused + (e.time - p.time), some e)
              | TaskState.Paused, TaskState.Stopped =>
                  some (elapsed, paused + (e.time - p.time), some e)
              | _, _ => none
  match events.foldl step (some (0, 0, none)) with
  | none => none
  | some (elapsed, paused, prev) =>
      match prev with
      | none => some (elapsed, paused)
      | some p =>
          match p.state with
          | TaskState.Paused => some (elapsed, paused + (now - p.time))
          | TaskState.Stopped => some (elapsed, paused)
          | _ => some (elapsed + (now - p.time), paused)

/-! ### Lemmas on session grouping -/

theorem mem_dedupFirst [DecidableEq α] {a : α} {l : List α} :
    a ∈ dedupFirst l ↔ a ∈ l := by
  induction l with
  | nil => simp [dedupFirst]
  | cons x xs ih =>
      simp only [dedupFirst, List.mem_cons, List.mem_filter, ih]
      by_cases h : a = x <;> simp [h]

theorem dedupFirst_append [DecidableEq α] (l : List α) (a : α) :
    dedupFirst (l ++ [a]) =
      if a ∈ l then dedupFirst l else dedupFirst l ++ [a] := by
  induction l with
  | nil => simp [dedupFirst]
  | cons x xs ih =>
      rw [List.cons_append]
      by_cases hmem : a ∈ xs
      · have hx : a ∈ x :: xs := List.mem_cons_of_mem _ hmem
        rw [if_pos hx]
        simp only [dedupFirst]
        rw [ih, if_pos hmem]
      · by_cases hax : a = x
        · subst hax
          have hx : a ∈ a :: xs := List.mem_cons_self _ _
          rw [if_pos hx]
          simp only [dedupFirst]
          rw [ih, if_neg hmem, List.filter_append]
          simp
        · have hx : a ∉ x :: xs := by simp [hax, hmem]
          rw [if_neg hx]
          simp only [dedupFirst]
          rw [ih, if_neg hmem, List.filter_append]
          simp [hax]

theorem mem_sessionKeys {k : String × Nat} {log : List TaskEvent} :
    k ∈ sessionKeys log ↔ k ∈ log.map (fun e => (e.name, e.session)) := by
  exact mem_dedupFirst

theorem sessionKeys_append (log : List TaskEvent) (e : TaskEvent) :
    sessionKeys (log ++ [e]) =
      if (e.name, e.session) ∈ sessionKeys log then sessionKeys log
      else sessionKeys log ++ [(e.name, e.session)] := by
  by_cases h : (e.name, e.session) ∈ sessionKeys log
  · rw [if_pos h]
    unfold sessionKeys
    rw [List.map_append, List.map_singleton, dedupFirst_append,
      if_pos (mem_sessionKeys.mp h)]
  · rw [if_neg h]
    unfold sessionKeys
    rw [List.map_append, List.map_singleton, dedupFirst_append,
      if_neg (fun hc => h (mem_sessionKeys.mpr hc))]

theorem sessionKeys_mono {k : String × Nat} {log : List TaskEvent}
    (e : TaskEvent) (h : k ∈ sessionKeys log) :
    k ∈ sessionKeys (log ++ [e]) := by
  rw [mem_sessionKeys] at h ⊢
  rw [List.map_append]
  exact List.mem_append_left _ h

theorem sessionEvents_append (log : List TaskEvent) (e : TaskEvent)
    (k : String × Nat) :
    sessionEvents (log ++ [e]) k =
      sessionEvents log k ++
        if e.name = k.1 ∧ e.session = k.2 then [e] else [] := by
  unfold sessionEvents
  rw [List.filter_append]
  congr 1
  by_cases h : e.name = k.1 ∧ e.session = k.2 <;> simp [h]

theorem sessionEvents_append_self (log : List TaskEvent) (e : TaskEvent) :
    sessionEvents (log ++ [e]) (e.name, e.session) =
      sessionEvents log (e.name, e.session) ++ [e] := by
  rw [sessionEvents_append, if_pos ⟨rfl, rfl⟩]

theorem sessionEvents_append_other (log : List TaskEvent) (e : TaskEvent)
    {k : String × Nat} (h : k ≠ (e.name, e.session)) :
    sessionEvents (log ++ [e]) k = sessionEvents log k := by
  rw [sessionEvents_append, if_neg, List.append_nil]
  intro hc
  exact h (Prod.ext_iff.mpr ⟨hc.1.symm, hc.2.symm⟩)

theorem sessionEvents_not_mem (log : List TaskEvent) {sid : Nat}
    (h : sid ∉ log.map (fun e => e.session)) (n : String) :
    sessionEvents log (n, sid) = [] := by
  rw [sessionEvents, List.filter_eq_nil_iff]
  intro a ha
  simp only [decide_eq_true_eq, not_and]
  intro _ hc
  exact absurd (List.mem_map.mpr ⟨a, ha, hc⟩) h

theorem allSessions_append_fresh {log : List TaskEvent} {e : TaskEvent}
    (h : e.session ∉ log.map (fun x => x.session)) :
    allSessions (log ++ [e]) = allSessions log ++ [⟨e.session, e.name, [e]⟩] := by
  have hkey : (e.name, e.session) ∉ sessionKeys log := by
    intro hc
    rw [mem_sessionKeys] at hc
    obtain ⟨x, hx, hxeq⟩ := List.mem_map.mp hc
    exact h (List.mem_map.mpr ⟨x, hx, congrArg Prod.snd hxeq⟩)
  unfold allSessions
  rw [sessionKeys_append, if_neg hkey, List.map_append, List.map_singleton]
  congr 1
  · refine List.map_congr_left (fun k hk => ?_)
    rw [sessionEvents_append_other log e (fun h' => hkey (h' ▸ hk))]
  · rw [sessionEvents_append_self, sessionEvents_not_mem log h]
    rfl

theorem allSessions_append_existing {log : List TaskEvent} {e : TaskEvent}
    (h : (e.name, e.session) ∈ sessionKeys log) :
    allSessions (log ++ [e]) =
      (allSessions log).map (fun s =>
        if s.name = e.name ∧ s.id = e.session then
          ⟨s.id, s.name, s.events ++ [e]⟩ else s) := by
  unfold allSessions
  rw [sessionKeys_append, if_pos h, List.map_map]
  refine List.map_congr_left (fun k hk => ?_)
  by_cases hke : k = (e.name, e.session)
  · subst hke
    simp [Function.comp, sessionEvents_append_self]
  · simp only [Function.comp_apply, sessionEvents_append_other log e hke]
    rw [if_neg]
    intro hc
    exact hke (Prod.ext_iff.mpr ⟨hc.1, hc.2⟩)

theorem mem_allSessions {s : TaskSession} {log : List TaskEvent}
    (h : s ∈ allSessions log) :
    (s.name, s.id) ∈ sessionKeys log ∧
      s.events = sessionEvents log (s.name, s.id) := by
  obtain ⟨k, hk, hkeq⟩ := List.mem_map.mp h
  cases hkeq
  exact ⟨hk, rfl⟩

theorem mem_ongoing_key {s : TaskSession} {log : List TaskEvent}
    (h : s ∈ ongoing_sessions log) :
    (s.name, s.id) ∈ sessionKeys log :=
  (mem_allSessions (List.mem_filter.mp h).1).1

theorem mem_ongoing_sid {s : TaskSession} {log : List TaskEvent}
    (h : s ∈ ongoing_sessions log) :
    s.id ∈ log.map (fun e => e.session) := by
  have := mem_sessionKeys.mp (mem_ongoing_key h)
  obtain ⟨x, hx, hxeq⟩ := List.mem_map.mp this
  exact List.mem_map.mpr ⟨x, hx, congrArg Prod.snd hxeq⟩

/-! ### Counting ongoing sessions -/

theorem countOngoingNamed_eq_countP (log : List TaskEvent) (n : String) :
    countOngoingNamed log n =
      (allSessions log).countP (fun s => decide (s.name = n) && !s.stoppedB) := by
  unfold countOngoingNamed ongoing_sessions
  rw [List.countP_filter]

theorem stoppedB_append_event (sess : TaskSession) (e : TaskEvent) :
    (TaskSession.mk sess.id sess.name (sess.events ++ [e])).stoppedB =
      (sess.stoppedB || decide (e.state = TaskState.Stopped)) := by
  simp [TaskSession.stoppedB, List.any_append]

theorem countOngoingNamed_append_fresh {log : List TaskEvent} {e : TaskEvent}
    (h : e.session ∉ log.map (fun x => x.session))
    (hs : e.state = TaskState.Started) (n : String) :
    countOngoingNamed (log ++ [e]) n =
      countOngoingNamed log n + if e.name = n then 1 else 0 := by
  rw [countOngoingNamed_eq_countP, countOngoingNamed_eq_countP,
    allSessions_append_fresh h, List.countP_append]
  congr 1
  simp [TaskSession.stoppedB, hs, List.countP_cons]

theorem countOngoingNamed_append_keep {log : List TaskEvent} {e : TaskEvent}
    (h : (e.name, e.session) ∈ sessionKeys log)
    (hs : e.state ≠ TaskState.Stopped) (n : String) :
    countOngoingNamed (log ++ [e]) n = countOngoingNamed log n := by
  rw [countOngoingNamed_eq_countP, countOngoingNamed_eq_countP,
    allSessions_append_existing h, List.countP_map]
  refine List.countP_congr (fun sess _ => ?_)
  by_cases hc : sess.name = e.name ∧ sess.id = e.session
  · simp only [Function.comp_apply, if_pos hc, stoppedB_append_event]
    simp [hs]
  · simp [Function.comp_apply, if_neg hc]

theorem countOngoingNamed_append_stop {log : List TaskEvent} {e : TaskEvent}
    (h : (e.name, e.session) ∈ sessionKeys log)
    (hs : e.state = TaskState.Stopped) (n : String) :
    countOngoingNamed (log ++ [e]) n ≤ countOngoingNamed log n := by
  rw [countOngoingNamed_eq_countP, countOngoingNamed_eq_countP,
    allSessions_append_existing h, List.countP_map]
  refine List.countP_mono_left (fun sess _ hp => ?_)
  by_cases hc : sess.name = e.name ∧ sess.id = e.session
  · exfalso
    simp only [Function.comp_apply, if_pos hc, stoppedB_append_event, hs] at hp
    simp at hp
  · simpa [Function.comp_apply, if_neg hc] using hp

/-! ### Batch insertion -/

theorem mkBatch_length (nid : Nat) (st : TaskState) (t : Int) :
    ∀ sl : List TaskSession, (mkBatch nid st t sl).length = sl.length := by
  intro sl
  induction sl generalizing nid with
  | nil => rfl
  | cons ses rest ih => simp [mkBatch, ih]

theorem mkBatch_time {st : TaskState} {t : Int} :
    ∀ {sl : List TaskSession} {nid : Nat} {e : TaskEvent},
      e ∈ mkBatch nid st t sl → e.time = t ∧ e.state = st := by
  intro sl
  induction sl with
  | nil => intro nid e h; cases h
  | cons ses rest ih =>
      intro nid e h
      rcases List.mem_cons.mp h with h1 | h2
      · subst h1; exact ⟨rfl, rfl⟩
      · exact ih h2

theorem mkBatch_mem_session {st : TaskState} {t : Int} :
    ∀ {sl : List TaskSession} {nid : Nat} {e : TaskEvent},
      e ∈ mkBatch nid st t sl → ∃ ses ∈ sl, e.name = ses.name ∧ e.session = ses.id := by
  intro sl
  induction sl with
  | nil => intro nid e h; cases h
  | cons ses rest ih =>
      intro nid e h
      rcases List.mem_cons.mp h with h1 | h2
      · subst h1; exact ⟨ses, List.mem_cons_self _ _, rfl, rfl⟩
      · obtain ⟨x, hx, hn⟩ := ih h2
        exact ⟨x, List.mem_cons_of_mem _ hx, hn⟩

theorem mkBatch_ne_nil {nid : Nat} {st : TaskState} {t : Int}
    {sl : List TaskSession} (h : sl ≠ []) : mkBatch nid st t sl ≠ [] := by
  cases sl with
  | nil => exact absurd rfl h
  | cons ses rest => simp [mkBatch]

theorem countOngoingNamed_mkBatch_stop :
    ∀ (sl : List TaskSession) (log : List TaskEvent) (nid : Nat) (t : Int),
      (∀ ses ∈ sl, (ses.name, ses.id) ∈ sessionKeys log) → ∀ n,
      countOngoingNamed (log ++ mkBatch nid TaskState.Stopped t sl) n ≤
        countOngoingNamed log n := by
  intro sl
  induction sl with
  | nil => intro log nid t _ n; simp [mkBatch]
  | cons ses rest ih =>
      intro log nid t hkeys n
      have hsplit : log ++ mkBatch nid TaskState.Stopped t (ses :: rest) =
          (log ++ [⟨nid, ses.name, ses.id, TaskState.Stopped, t⟩]) ++
            mkBatch (nid + 1) TaskState.Stopped t rest := by
        simp [mkBatch]
      rw [hsplit]
      have hk : (ses.name, ses.id) ∈ sessionKeys log :=
        hkeys ses (List.mem_cons_self _ _)
      calc countOngoingNamed
            ((log ++ [⟨nid, ses.name, ses.id, TaskState.Stopped, t⟩]) ++
              mkBatch (nid + 1) TaskState.Stopped t rest) n
          ≤ countOngoingNamed
              (log ++ [⟨nid, ses.name, ses.id, TaskState.Stopped, t⟩]) n := by
            refine ih _ _ _ (fun x hx => ?_) n
            exact sessionKeys_mono _ (hkeys x (List.mem_cons_of_mem _ hx))
        _ ≤ countOngoingNamed log n :=
            countOngoingNamed_append_stop hk rfl n

theorem countOngoingNamed_mkBatch_keep {st : TaskState}
    (hst : st ≠ TaskState.Stopped) :
    ∀ (sl : List TaskSession) (log : List TaskEvent) (nid : Nat) (t : Int),
      (∀ ses ∈ sl, (ses.name, ses.id) ∈ sessionKeys log) → ∀ n,
      countOngoingNamed (log ++ mkBatch nid st t sl) n =
        countOngoingNamed log n := by
  intro sl
  induction sl with
  | nil => intro log nid t _ n; simp [mkBatch]
  | cons ses rest ih =>
      intro log nid t hkeys n
      have hsplit : log ++ mkBatch nid st t (ses :: rest) =
          (log ++ [⟨nid, ses.name, ses.id, st, t⟩]) ++
            mkBatch (nid + 1) st t rest := by
        simp [mkBatch]
      rw [hsplit]
      have hk : (ses.name, ses.id) ∈ sessionKeys log :=
        hkeys ses (List.mem_cons_self _ _)
      rw [ih _ _ _ (fun x hx => sessionKeys_mono _ (hkeys x (List.mem_cons_of_mem _ hx))) n]
      exact countOngoingNamed_append_keep hk hst n

/-! ### The maximal timestamp and undo -/

theorem maxTime_cons (e : TaskEvent) (rest : List TaskEvent) :
    maxTime (e :: rest) =
      some ((maxTime rest).elim e.time (fun m => max e.time m)) := by
  rw [maxTime]
  cases maxTime rest <;> rfl

theorem maxTime_eq_none {l : List TaskEvent} : maxTime l = none ↔ l = [] := by
  cases l with
  | nil => simp [maxTime]
  | cons x xs => rw [maxTime_cons]; simp

theorem maxTime_le {log : List TaskEvent} {m : Int}
    (h : maxTime log = some m) : ∀ e ∈ log, e.time ≤ m := by
  induction log generalizing m with
  | nil => intro e he; cases he
  | cons x rest ih =>
      intro e he
      rw [maxTime_cons] at h
      have hm := Option.some.inj h
      cases hrest : maxTime rest with
      | none =>
          rw [hrest, Option.elim_none] at hm
          rcases List.mem_cons.mp he with h1 | h1
          · subst h1; exact le_of_eq hm
          · rw [maxTime_eq_none.mp hrest] at h1; cases h1
      | some m0 =>
          rw [hrest, Option.elim_some] at hm
          rcases List.mem_cons.mp he with h1 | h1
          · subst h1; rw [← hm]; exact le_max_left _ _
          · exact le_trans (ih hrest e h1) (by rw [← hm]; exact le_max_right _ _)

theorem maxTime_mem {log : List TaskEvent} {m : Int}
    (h : maxTime log = some m) : ∃ e ∈ log, e.time = m := by
  induction log generalizing m with
  | nil => cases h
  | cons x rest ih =>
      rw [maxTime_cons] at h
      have hm := Option.some.inj h
      cases hrest : maxTime rest with
      | none =>
          rw [hrest, Option.elim_none] at hm
          exact ⟨x, List.mem_cons_self _ _, hm⟩
      | some m0 =>
          rw [hrest, Option.elim_some] at hm
          rcases le_total x.time m0 with hle | hle
          · obtain ⟨e, he, het⟩ := ih hrest
            exact ⟨e, List.mem_cons_of_mem _ he, by rw [het, ← hm, max_eq_right hle]⟩
          · exact ⟨x, List.mem_cons_self _ _, by rw [← hm, max_eq_left hle]⟩

theorem maxTime_batch {t : Int} :
    ∀ {batch : List TaskEvent}, batch ≠ [] → (∀ e ∈ batch, e.time = t) →
      maxTime batch = some t := by
  intro batch
  induction batch with
  | nil => intro h; exact absurd rfl h
  | cons x rest ih =>
      intro _ ht
      rw [maxTime_cons]
      cases hrest : maxTime rest with
      | none =>
          rw [Option.elim_none, ht x (List.mem_cons_self _ _)]
      | some m0 =>
          obtain ⟨e, he, het⟩ := maxTime_mem hrest
          have hm0 : m0 = t := by
            rw [← het]; exact ht e (List.mem_cons_of_mem x he)
          rw [Option.elim_some, hm0, ht x (List.mem_cons_self _ _), max_self]

theorem maxTime_append_fresh {log batch : List TaskEvent} {t : Int}
    (hb : batch ≠ []) (hbt : ∀ e ∈ batch, e.time = t)
    (hlt : ∀ e ∈ log, e.time < t) :
    maxTime (log ++ batch) = some t := by
  induction log with
  | nil => simpa using maxTime_batch hb hbt
  | cons x rest ih =>
      rw [List.cons_append, maxTime_cons,
        ih (fun e he => hlt e (List.mem_cons_of_mem _ he)), Option.elim_some,
        max_eq_right (le_of_lt (hlt x (List.mem_cons_self _ _)))]

theorem filter_time_ne_all_lt {log : List TaskEvent} {t : Int}
    (hlt : ∀ e ∈ log, e.time < t) :
    log.filter (fun e => e.time ≠ t) = log :=
  List.filter_eq_self.mpr (fun e he => by simpa using ne_of_lt (hlt e he))

theorem filter_time_ne_all_eq {batch : List TaskEvent} {t : Int}
    (hbt : ∀ e ∈ batch, e.time = t) :
    batch.filter (fun e => e.time ≠ t) = [] :=
  List.filter_eq_nil_iff.mpr (fun e he => by simpa using hbt e he)

theorem filter_time_eq_all_lt {log : List TaskEvent} {t : Int}
    (hlt : ∀ e ∈ log, e.time < t) :
    log.filter (fun e => e.time = t) = [] :=
  List.filter_eq_nil_iff.mpr (fun e he => by simpa using ne_of_lt (hlt e he))

theorem filter_time_eq_all_eq {batch : List TaskEvent} {t : Int}
    (hbt : ∀ e ∈ batch, e.time = t) :
    batch.filter (fun e => e.time = t) = batch :=
  List.filter_eq_self.mpr (fun e he => by simpa using hbt e he)

theorem undoLog_append_fresh {log batch : List TaskEvent} {t : Int}
    (hb : batch ≠ []) (hbt : ∀ e ∈ batch, e.time = t)
    (hlt : ∀ e ∈ log, e.time < t) :
    undoLog (log ++ batch) = log := by
  simp only [undoLog, maxTime_append_fresh hb hbt hlt]
  rw [List.filter_append, filter_time_ne_all_lt hlt, filter_time_ne_all_eq hbt,
    List.append_nil]

theorem undo_append_fresh {log batch : List TaskEvent} {t : Int} {nid : Nat}
    (hb : batch ≠ []) (hbt : ∀ e ∈ batch, e.time = t)
    (hlt : ∀ e ∈ log, e.time < t) :
    undo ⟨log ++ batch, nid⟩ = (⟨log, nid⟩, batch.length) := by
  have hmax : maxTime (ShiftDb.log ⟨log ++ batch, nid⟩) = some t :=
    maxTime_append_fresh hb hbt hlt
  simp only [undo, hmax]
  rw [List.filter_append, filter_time_ne_all_lt hlt, filter_time_ne_all_eq hbt,
    List.append_nil, List.filter_append, filter_time_eq_all_lt hlt,
    filter_time_eq_all_eq hbt, List.nil_append]


theorem mem_undoLog {e : TaskEvent} {log : List TaskEvent}
    (h : e ∈ undoLog log) : e ∈ log := by
  rw [undoLog] at h
  cases hm : maxTime log with
  | none => rw [hm] at h; exact h
  | some m => rw [hm] at h; exact (List.mem_filter.mp h).1

/-- Iterated `undo` on the raw log. -/
def iterUndo : Nat → List TaskEvent → List TaskEvent
  | 0, log => log
  | k + 1, log => iterUndo k (undoLog log)

theorem undoLog_nil : undoLog [] = [] := rfl

theorem iterUndo_nil : ∀ k : Nat, iterUndo k [] = []
  | 0 => rfl
  | k + 1 => by rw [iterUndo, undoLog_nil]; exact iterUndo_nil k

/-! ### Inversion of the successful command paths -/

theorem startCore_ok {s : ShiftDb} {name : String} {tOpt : Option Int}
    {now : Int} {e : TaskEvent} {s1 : ShiftDb}
    (h : startCore s name tOpt now = Except.ok (e, s1)) :
    e = ⟨s.nextId, name, s.nextId, TaskState.Started, tOpt.getD now⟩ ∧
      s1 = ⟨s.log ++ [e], s.nextId + 1⟩ ∧
      countOngoingNamed s.log name = 0 := by
  simp only [startCore] at h
  split at h
  · simp at h
  · rename_i hcond
    simp only [Except.ok.injEq, Prod.mk.injEq] at h
    obtain ⟨he, hs1⟩ := h
    refine ⟨he.symm, hs1.symm ▸ (by rw [← he]), ?_⟩
    rw [countOngoingNamed, List.countP_eq_length_filter]
    exact Nat.eq_zero_of_not_pos hcond

theorem stop_ok {s : ShiftDb} {args : StopOpts} {now : Int} {s1 : ShiftDb}
    (h : stop s args now = Except.ok s1) :
    ∃ sl : List TaskSession, sl ≠ [] ∧
      (∀ ses ∈ sl, ses ∈ ongoing_sessions s.log) ∧
      s1 = ⟨s.log ++ mkBatch s.nextId TaskState.Stopped (args.stop_time.getD now) sl,
        s.nextId + sl.length⟩ := by
  simp only [stop] at h
  split at h
  · rename_i name huid
    split at h
    · simp at h
    · rename_i session heq
      simp only [Except.ok.injEq] at h
      refine ⟨[session], by simp, ?_, h.symm⟩
      intro ses hses
      rw [List.mem_singleton] at hses
      subst hses
      have : ses ∈ (ongoing_sessions s.log).filter
          (fun x => x.name = name ∨ (toString x.id).endsWith name) := by
        rw [heq]; exact List.mem_singleton.mpr rfl
      exact (List.mem_filter.mp this).1
    · simp at h
  · split at h
    · rename_i hcond
      simp only [Except.ok.injEq] at h
      refine ⟨ongoing_sessions s.log, ?_, fun ses hses => hses, h.symm⟩
      simp only [Bool.or_eq_true, beq_iff_eq, Bool.and_eq_true,
        Bool.not_eq_true'] at hcond
      rcases hcond with h1 | h2
      · exact List.ne_nil_of_length_eq_add_one h1
      · exact fun hc => by simp [hc] at h2
    · split at h <;> simp at h

theorem pause_ok {s : ShiftDb} {args : Config} {now : Int} {s1 : ShiftDb}
    (h : pause s args now = Except.ok s1) :
    ∃ sl : List TaskSession,
      (∀ ses ∈ sl, ses ∈ ongoing_sessions s.log) ∧
      s1 = ⟨s.log ++ mkBatch s.nextId TaskState.Paused now sl,
        s.nextId + sl.length⟩ ∧
      (sl = [] →
        (ongoing_sessions s.log).filter (fun ses => !ses.is_paused) = []) := by
  simp only [pause] at h
  split at h
  · rename_i uid huid
    split at h
    · simp at h
    · rename_i t heq
      simp only [Except.ok.injEq] at h
      refine ⟨[t], ?_, h.symm, by simp⟩
      intro ses hses
      rw [List.mem_singleton] at hses
      subst hses
      have h1 : ses ∈ ((ongoing_sessions s.log).filter
          (fun x => !x.is_paused)).filter
          (fun x => x.name = uid ∨ (toString x.id).endsWith uid) := by
        rw [heq]; exact List.mem_singleton.mpr rfl
      exact (List.mem_filter.mp ((List.mem_filter.mp h1).1)).1
    · simp at h
  · split at h
    · simp only [Except.ok.injEq] at h
      refine ⟨(ongoing_sessions s.log).filter (fun ses => !ses.is_paused),
        fun ses hses => (List.mem_filter.mp hses).1, h.symm, fun hnil => hnil⟩
    · split at h <;> simp at h

theorem resume_ok {s : ShiftDb} {args : Config} {now : Int} {s1 : ShiftDb}
    (h : resume s args now = Except.ok s1) :
    ∃ sl : List TaskSession,
      (∀ ses ∈ sl, ses ∈ ongoing_sessions s.log) ∧
      s1 = ⟨s.log ++ mkBatch s.nextId TaskState.Resumed now sl,
        s.nextId + sl.length⟩ ∧
      (sl = [] →
        (ongoing_sessions s.log).filter (fun ses => ses.is_paused) = []) := by
  simp only [resume] at h
  split at h
  · rename_i name huid
    split at h
    · simp at h
    · rename_i t heq
      simp only [Except.ok.injEq] at h
      refine ⟨[t], ?_, h.symm, by simp⟩
      intro ses hses
      rw [List.mem_singleton] at hses
      subst hses
      have h1 : ses ∈ ((ongoing_sessions s.log).filter
          (fun x => x.is_paused)).filter
          (fun x => x.name = name ∨ (toString x.id).endsWith name) := by
        rw [heq]; exact List.mem_singleton.mpr rfl
      exact (List.mem_filter.mp ((List.mem_filter.mp h1).1)).1
    · simp at h
  · split at h
    · simp only [Except.ok.injEq] at h
      refine ⟨(ongoing_sessions s.log).filter (fun ses => ses.is_paused),
        fun ses hses => (List.mem_filter.mp hses).1, h.symm, fun hnil => hnil⟩
    · split at h <;> simp at h

theorem undo_fst (s : ShiftDb) :
    (undo s).1.log = undoLog s.log ∧ (undo s).1.nextId = s.nextId := by
  rw [undo, undoLog]
  cases maxTime s.log <;> exact ⟨rfl, rfl⟩

/-! ### Reachable states under the wall-clock discipline -/

/-- Session-id freshness: every recorded session id is below the uuid
counter. -/
def sidFresh (s : ShiftDb) : Prop := ∀ e ∈ s.log, e.session < s.nextId

/-- One successful engine step.  Mutating commands carry the hypothesis that
their effective timestamp is strictly later than every recorded event (the
wall-clock discipline); `undo` is unrestricted. -/
inductive Step : ShiftDb → ShiftDb → Prop where
  | ofStart {s s1 : ShiftDb} (name : String) (tOpt : Option Int) (now : Int)
      (e : TaskEvent)
      (hfresh : ∀ ev ∈ s.log, ev.time < tOpt.getD now)
      (h : startCore s name tOpt now = Except.ok (e, s1)) : Step s s1
  | ofStop {s s1 : ShiftDb} (args : StopOpts) (now : Int)
      (hfresh : ∀ ev ∈ s.log, ev.time < args.stop_time.getD now)
      (h : stop s args now = Except.ok s1) : Step s s1
  | ofPause {s s1 : ShiftDb} (args : Config) (now : Int)
      (hfresh : ∀ ev ∈ s.log, ev.time < now)
      (h : pause s args now = Except.ok s1) : Step s s1
  | ofResume {s s1 : ShiftDb} (args : Config) (now : Int)
      (hfresh : ∀ ev ∈ s.log, ev.time < now)
      (h : resume s args now = Except.ok s1) : Step s s1
  | ofUndo {s s1 : ShiftDb} (k : Nat) (h : undo s = (s1, k)) : Step s s1

/-- States reachable from the empty store by successful steps. -/
inductive Reachable : ShiftDb → Prop where
  | init : Reachable ⟨[], 0⟩
  | step {s s1 : ShiftDb} : Reachable s → Step s s1 → Reachable s1

theorem sidFresh_batch {s : ShiftDb} {st : TaskState} {t : Int}
    {sl : List TaskSession}
    (hmem : ∀ ses ∈ sl, ses ∈ ongoing_sessions s.log) (hsf : sidFresh s) :
    sidFresh ⟨s.log ++ mkBatch s.nextId st t sl, s.nextId + sl.length⟩ := by
  intro e he
  rcases List.mem_append.mp he with h1 | h2
  · exact lt_of_lt_of_le (hsf e h1) (Nat.le_add_right _ _)
  · obtain ⟨ses, hses, _, hsid⟩ := mkBatch_mem_session h2
    rw [hsid]
    obtain ⟨x, hx, hxs⟩ := List.mem_map.mp (mem_ongoing_sid (hmem ses hses))
    rw [← hxs]
    exact lt_of_lt_of_le (hsf x hx) (Nat.le_add_right _ _)

theorem inv_batch {log : List TaskEvent} {nid : Nat} {st : TaskState} {t : Int}
    {sl : List TaskSession}
    (hmem : ∀ ses ∈ sl, ses ∈ ongoing_sessions log)
    (hfresh : ∀ ev ∈ log, ev.time < t)
    (hInv : ∀ k n, countOngoingNamed (iterUndo k log) n ≤ 1) :
    ∀ k n, countOngoingNamed (iterUndo k (log ++ mkBatch nid st t sl)) n ≤ 1 := by
  intro k n
  cases hsl : sl with
  | nil =>
      subst hsl
      rw [mkBatch, List.append_nil]
      exact hInv k n
  | cons a as =>
      have hne : sl ≠ [] := by rw [hsl]; exact List.cons_ne_nil a as
      subst hsl
      have hkeys : ∀ ses ∈ a :: as, (ses.name, ses.id) ∈ sessionKeys log :=
        fun ses hses => mem_ongoing_key (hmem ses hses)
      cases k with
      | zero =>
          rw [iterUndo]
          by_cases hst : st = TaskState.Stopped
          · subst hst
            exact le_trans
              (countOngoingNamed_mkBatch_stop (a :: as) log nid t hkeys n)
              (hInv 0 n)
          · rw [countOngoingNamed_mkBatch_keep hst (a :: as) log nid t hkeys n]
            exact hInv 0 n
      | succ k1 =>
          rw [iterUndo, undoLog_append_fresh (mkBatch_ne_nil hne)
            (fun e he => (mkBatch_time he).1) hfresh]
          exact hInv k1 n

/-- Every reachable state has fresh session ids and, after any number of
undos, at most one ongoing session per task name. -/
theorem reachable_strong {s : ShiftDb} (h : Reachable s) :
    sidFresh s ∧ ∀ k n, countOngoingNamed (iterUndo k s.log) n ≤ 1 := by
  induction h with
  | init =>
      constructor
      · intro e he; cases he
      · intro k n
        rw [iterUndo_nil]
        exact Nat.zero_le 1
  | step hr hstep ih =>
      rename_i sa sb
      obtain ⟨ihf, ihc⟩ := ih
      cases hstep with
      | ofStart name tOpt now e hfresh h =>
          obtain ⟨he, hs1, hcount⟩ := startCore_ok h
          have hsess : e.session = sa.nextId := by rw [he]
          have hstate : e.state = TaskState.Started := by rw [he]
          have htime : e.time = tOpt.getD now := by rw [he]
          have hname : e.name = name := by rw [he]
          have hsid : e.session ∉ sa.log.map (fun x => x.session) := by
            intro hc
            obtain ⟨x, hx, hxs⟩ := List.mem_map.mp hc
            rw [hsess] at hxs
            exact absurd hxs (Nat.ne_of_lt (ihf x hx))
          constructor
          · rw [hs1]
            intro ev hev
            rcases List.mem_append.mp hev with h1 | h2
            · exact lt_of_lt_of_le (ihf ev h1) (Nat.le_succ _)
            · rw [List.mem_singleton.mp h2, hsess]
              exact Nat.lt_succ_self _
          · intro k n
            rw [hs1]
            cases k with
            | zero =>
                show countOngoingNamed (sa.log ++ [e]) n ≤ 1
                rw [countOngoingNamed_append_fresh hsid hstate n]
                by_cases hn : e.name = n
                · rw [if_pos hn]
                  have h0 : countOngoingNamed sa.log n = 0 := by
                    rw [← hn, hname]; exact hcount
                  rw [h0]
                · rw [if_neg hn, Nat.add_zero]
                  exact ihc 0 n
            | succ k1 =>
                show countOngoingNamed (iterUndo k1 (undoLog (sa.log ++ [e]))) n ≤ 1
                rw [undoLog_append_fresh (List.cons_ne_nil e [])
                  (fun ev hev => by rw [List.mem_singleton.mp hev, htime])
                  hfresh]
                exact ihc k1 n
      | ofStop args now hfresh h =>
          obtain ⟨sl, _, hmem, hs1⟩ := stop_ok h
          rw [hs1]
          exact ⟨sidFresh_batch hmem ihf, inv_batch hmem hfresh ihc⟩
      | ofPause args now hfresh h =>
          obtain ⟨sl, hmem, hs1, _⟩ := pause_ok h
          rw [hs1]
          exact ⟨sidFresh_batch hmem ihf, inv_batch hmem hfresh ihc⟩
      | ofResume args now hfresh h =>
          obtain ⟨sl, hmem, hs1, _⟩ := resume_ok h
          rw [hs1]
          exact ⟨sidFresh_batch hmem ihf, inv_batch hmem hfresh ihc⟩
      | ofUndo k h =>
          have hu := undo_fst sa
          rw [h] at hu
          constructor
          · intro e he
            rw [hu.2]
            exact ihf e (mem_undoLog (hu.1 ▸ he))
          · intro k1 n
            rw [hu.1]
            exact ihc (k1 + 1) n

/-! ### Claim theorems -/

theorem all_le_iff_eq_max {log : List TaskEvent} {m : Int}
    (hm : maxTime log = some m) {e : TaskEvent} (he : e ∈ log) :
    (log.all (fun x => x.time ≤ e.time)) = decide (e.time = m) := by
  by_cases h : e.time = m
  · rw [decide_eq_true h, List.all_eq_true]
    intro x hx
    simp only [decide_eq_true_eq]
    rw [h]
    exact maxTime_le hm x hx
  · have hlt : e.time < m := lt_of_le_of_ne (maxTime_le hm e he) h
    obtain ⟨x0, hx0, hx0t⟩ := maxTime_mem hm
    rw [decide_eq_false h]
    rw [List.all_eq_false]
    refine ⟨x0, hx0, ?_⟩
    simp only [decide_eq_true_eq]
    rw [hx0t]
    exact not_le_of_lt hlt

theorem length_filter_time_eq_add (log : List TaskEvent) (m : Int) :
    (log.filter (fun e => e.time = m)).length +
      (log.filter (fun e => e.time ≠ m)).length = log.length := by
  induction log with
  | nil => rfl
  | cons x rest ih =>
      by_cases h : x.time = m <;>
        simp [List.filter_cons, h, ← ih] <;> omega

/-- C2: `undo` deletes exactly the events whose time is maximal over the
whole log (those whose time every event's time is below or equal), leaves
every other event in place in order, and returns the number deleted. -/
theorem undo_deletes_exactly_max (s : ShiftDb) :
    (undo s).1.log =
      s.log.filter (fun e => !(s.log.all (fun x => x.time ≤ e.time))) ∧
    (undo s).2 =
      (s.log.filter (fun e => s.log.all (fun x => x.time ≤ e.time))).length ∧
    (undo s).2 + (undo s).1.log.length = s.log.length := by
  obtain ⟨slog, snid⟩ := s
  cases hm : maxTime slog with
  | none =>
      have hnil : slog = [] := maxTime_eq_none.mp hm
      subst hnil
      exact ⟨rfl, rfl, rfl⟩
  | some m =>
      simp only [undo, hm]
      refine ⟨?_, ?_, ?_⟩
      · refine List.filter_congr (fun e he => ?_)
        rw [all_le_iff_eq_max hm he]
        by_cases h : e.time = m <;> simp [h]
      · refine congrArg List.length (List.filter_congr (fun e he => ?_))
        rw [all_le_iff_eq_max hm he]
      · exact length_filter_time_eq_add slog m

/-- C3: for a session consisting of `Started` then `Stopped` with no
intervening pause, `get_times` returns elapsed `stop.time - start.time` and
paused `0`; and for a `Started`, `Paused`, `Resumed`, `Stopped` session the
returned elapsed and paused durations sum to `stop.time - start.time`. -/
theorem get_times_start_stop_pause_resume :
    (∀ (e1 e2 : TaskEvent) (now : Int),
        e1.state = TaskState.Started → e2.state = TaskState.Stopped →
        get_times [e1, e2] now = some (e2.time - e1.time, 0)) ∧
    (∀ (e1 ep er e2 : TaskEvent) (now : Int),
        e1.state = TaskState.Started → ep.state = TaskState.Paused →
        er.state = TaskState.Resumed → e2.state = TaskState.Stopped →
        ∃ el pa, get_times [e1, ep, er, e2] now = some (el, pa) ∧
          el + pa = e2.time - e1.time) := by
  constructor
  · intro e1 e2 now h1 h2
    obtain ⟨i1, n1, s1, st1, t1⟩ := e1
    obtain ⟨i2, n2, s2, st2, t2⟩ := e2
    dsimp only at h1 h2
    subst h1
    subst h2
    simp [get_times]
  · intro e1 ep er e2 now h1 hp hr h2
    obtain ⟨i1, n1, s1, st1, t1⟩ := e1
    obtain ⟨ip, np, sp, stp, tp⟩ := ep
    obtain ⟨ir, nr, sr, str, tr⟩ := er
    obtain ⟨i2, n2, s2, st2, t2⟩ := e2
    dsimp only at h1 hp hr h2
    subst h1
    subst hp
    subst hr
    subst h2
    refine ⟨tp - t1 + (t2 - tr), tr - tp, ?_, by ring⟩
    simp [get_times]

/-- C3 witness: the spec scenario, start at 0, pause at 30, resume at 40,
stop at 100, gives elapsed 90 and paused 10; a plain start/stop session of
length 7 gives elapsed 7 and paused 0. -/
theorem get_times_start_stop_pause_resume_witness :
    get_times [⟨0, "w", 0, TaskState.Started, 0⟩,
      ⟨1, "w", 0, TaskState.Stopped, 7⟩] 50 = some ((7 : Int) - 0, 0) ∧
    ∃ el pa, get_times [⟨0, "w", 0, TaskState.Started, 0⟩,
      ⟨1, "w", 0, TaskState.Paused, 30⟩, ⟨2, "w", 0, TaskState.Resumed, 40⟩,
      ⟨3, "w", 0, TaskState.Stopped, 100⟩] 200 = some (el, pa) ∧
      el + pa = (100 : Int) - 0 :=
  ⟨get_times_start_stop_pause_resume.1 ⟨0, "w", 0, TaskState.Started, 0⟩
      ⟨1, "w", 0, TaskState.Stopped, 7⟩ 50 rfl rfl,
    get_times_start_stop_pause_resume.2 ⟨0, "w", 0, TaskState.Started, 0⟩
      ⟨1, "w", 0, TaskState.Paused, 30⟩ ⟨2, "w", 0, TaskState.Resumed, 40⟩
      ⟨3, "w", 0, TaskState.Stopped, 100⟩ 200 rfl rfl rfl rfl⟩

/-- C5 counterexample: with no identifier, the `all` flag set and zero
eligible candidates, `pause` and `resume` succeed as silent no-ops instead
of returning the zero-match error claimed. -/
theorem zero_candidates_cex :
    pause ⟨[], 0⟩ { uid := none, all := true } 5 = Except.ok ⟨[], 0⟩ ∧
    resume ⟨[], 0⟩ { uid := none, all := true } 5 = Except.ok ⟨[], 0⟩ ∧
    pause ⟨[], 0⟩ { uid := none, all := true } 5 ≠
      Except.error PauseResumeError.NoTasks ∧
    resume ⟨[], 0⟩ { uid := none, all := true } 5 ≠
      Except.error PauseResumeError.NoPauses := by
  refine ⟨rfl, rfl, fun hcontra => ?_, fun hcontra => ?_⟩
  · rw [show pause ⟨[], 0⟩ { uid := none, all := true } 5 =
        Except.ok ⟨[], 0⟩ from rfl] at hcontra
    exact Except.noConfusion hcontra
  · rw [show resume ⟨[], 0⟩ { uid := none, all := true } 5 =
        Except.ok ⟨[], 0⟩ from rfl] at hcontra
    exact Except.noConfusion hcontra

/-- C5 amended: with identifier `none` and zero eligible candidates, `stop`
returns `NoTasks` whatever the `all` flag; `pause` returns `NoTasks` and
`resume` returns `NoPauses` only when `all` is unset; when `all` is set and
zero candidates exist, `pause` and `resume` return success and append no
event. -/
theorem zero_candidates_errors :
    (∀ (s : ShiftDb) (args : StopOpts) (now : Int), args.uid = none →
        ongoing_sessions s.log = [] →
        stop s args now = Except.error StopError.NoTasks) ∧
    (∀ (s : ShiftDb) (args : Config) (now : Int), args.uid = none →
        args.all = false →
        (ongoing_sessions s.log).filter (fun ses => !ses.is_paused) = [] →
        pause s args now = Except.error PauseResumeError.NoTasks) ∧
    (∀ (s : ShiftDb) (args : Config) (now : Int), args.uid = none →
        args.all = false →
        (ongoing_sessions s.log).filter (fun ses => ses.is_paused) = [] →
        resume s args now = Except.error PauseResumeError.NoPauses) ∧
    (∀ (s : ShiftDb) (args : Config) (now : Int), args.uid = none →
        args.all = true →
        (ongoing_sessions s.log).filter (fun ses => !ses.is_paused) = [] →
        pause s args now = Except.ok s) ∧
    (∀ (s : ShiftDb) (args : Config) (now : Int), args.uid = none →
        args.all = true →
        (ongoing_sessions s.log).filter (fun ses => ses.is_paused) = [] →
        resume s args now = Except.ok s) := by
  refine ⟨?_, ?_, ?_, ?_, ?_⟩
  · intro s args now huid hongoing
    simp [stop, huid, hongoing]
  · intro s args now huid hall hfilter
    simp [pause, huid, hall, hfilter]
  · intro s args now huid hall hfilter
    simp [resume, huid, hall, hfilter]
  · intro s args now huid hall hfilter
    simp [pause, huid, hall, hfilter, mkBatch]
  · intro s args now huid hall hfilter
    simp [resume, huid, hall, hfilter, mkBatch]

/-- C5 witness: on the empty store, `stop` and `pause` report `NoTasks` and
`resume` reports `NoPauses` when `all` is unset, while `pause` and `resume`
succeed unchanged when `all` is set. -/
theorem zero_candidates_errors_witness :
    stop ⟨[], 0⟩ {} 3 = Except.error StopError.NoTasks ∧
    pause ⟨[], 0⟩ {} 3 = Except.error PauseResumeError.NoTasks ∧
    resume ⟨[], 0⟩ {} 3 = Except.error PauseResumeError.NoPauses ∧
    pause ⟨[], 0⟩ { all := true } 3 = Except.ok ⟨[], 0⟩ ∧
    resume ⟨[], 0⟩ { all := true } 3 = Except.ok ⟨[], 0⟩ :=
  ⟨zero_candidates_errors.1 ⟨[], 0⟩ {} 3 rfl (by decide),
    zero_candidates_errors.2.1 ⟨[], 0⟩ {} 3 rfl rfl (by decide),
    zero_candidates_errors.2.2.1 ⟨[], 0⟩ {} 3 rfl rfl (by decide),
    zero_candidates_errors.2.2.2.1 ⟨[], 0⟩ { all := true } 3 rfl rfl (by decide),
    zero_candidates_errors.2.2.2.2 ⟨[], 0⟩ { all := true } 3 rfl rfl (by decide)⟩

/-- C6: after starting "a" and pausing it once with no identifier, a second
identifierless `pause` fails with `NoTasks` (no non-paused ongoing session
remains), not `NoPauses`, and the store is unchanged. -/
theorem pause_twice_no_tasks :
    startCore ⟨[], 0⟩ "a" none 0 =
      Except.ok (⟨0, "a", 0, TaskState.Started, 0⟩,
        ⟨[⟨0, "a", 0, TaskState.Started, 0⟩], 1⟩) ∧
    pause ⟨[⟨0, "a", 0, TaskState.Started, 0⟩], 1⟩ {} 1 =
      Except.ok ⟨[⟨0, "a", 0, TaskState.Started, 0⟩,
        ⟨1, "a", 0, TaskState.Paused, 1⟩], 2⟩ ∧
    pause ⟨[⟨0, "a", 0, TaskState.Started, 0⟩,
        ⟨1, "a", 0, TaskState.Paused, 1⟩], 2⟩ {} 2 =
      Except.error PauseResumeError.NoTasks := by
  exact ⟨rfl, rfl, rfl⟩

/-- C10: running `start` with no task name in the options panics on the
`expect` (it can never return normally, with a success or an error), and
the recoverable `StartError` type only covers the `Ongoing` and `SqlError`
cases. -/
theorem start_missing_name_panics :
    (∀ (s : ShiftDb) (args : StartOpts) (now : Int), args.uid = none →
        start s args now =
          StartOutcome.panicked "Required to specify task name") ∧
    (∀ er : StartError,
        (∃ n, er = StartError.Ongoing n) ∨ (∃ m, er = StartError.SqlError m)) := by
  constructor
  · intro s args now huid
    simp [start, huid]
  · intro er
    cases er with
    | Ongoing n => exact Or.inl ⟨n, rfl⟩
    | SqlError m => exact Or.inr ⟨m, rfl⟩

/-- C10 witness: `start` on the empty store with default options panics. -/
theorem start_missing_name_panics_witness :
    start ⟨[], 0⟩ {} 0 = StartOutcome.panicked "Required to specify task name" :=
  start_missing_name_panics.1 ⟨[], 0⟩ {} 0 rfl

theorem stop_none_multiple (s : ShiftDb) (args : StopOpts) (now : Int)
    (huid : args.uid = none) (hall : args.all = false)
    (h2 : 2 ≤ (ongoing_sessions s.log).length) :
    stop s args now =
      Except.error (StopError.MultipleSessions (ongoing_sessions s.log)) := by
  have hg : (((ongoing_sessions s.log).length == 1) ||
      (args.all && !(ongoing_sessions s.log).isEmpty)) = false := by
    rw [hall]
    simp only [Bool.false_and, Bool.or_false, beq_eq_false_iff_ne, ne_eq]
    omega
  have hgc : ¬ ((((ongoing_sessions s.log).length == 1) ||
      (args.all && !(ongoing_sessions s.log).isEmpty)) = true) := by
    rw [hg]
    exact Bool.false_ne_true
  simp only [stop, huid]
  rw [if_neg hgc]
  cases hc : ongoing_sessions s.log with
  | nil => rw [hc] at h2; simp at h2
  | cons a rest => rfl

/-- C4: with identifier `none`, `all` unset and at least two ongoing
sessions, `stop` fails with `MultipleSessions` carrying exactly the ongoing
session list in input order; the error path inserts nothing. -/
theorem stop_multiple_sessions (s : ShiftDb) (args : StopOpts) (now : Int)
    (huid : args.uid = none) (hall : args.all = false)
    (h2 : 2 ≤ (ongoing_sessions s.log).length) :
    stop s args now =
      Except.error (StopError.MultipleSessions (ongoing_sessions s.log)) :=
  stop_none_multiple s args now huid hall h2

/-- C4 witness: with "a" and "b" both ongoing, an identifierless `stop`
without `all` reports both sessions. -/
theorem stop_multiple_sessions_witness :
    stop ⟨[⟨0, "a", 0, TaskState.Started, 1⟩,
      ⟨1, "b", 1, TaskState.Started, 2⟩], 2⟩ {} 9 =
      Except.error (StopError.MultipleSessions (ongoing_sessions
        [⟨0, "a", 0, TaskState.Started, 1⟩,
          ⟨1, "b", 1, TaskState.Started, 2⟩])) :=
  stop_multiple_sessions _ {} 9 rfl rfl (by decide)

/-- C9 counterexample: with an explicit name filter, `all` unset and count 1,
`sessions` returns one session although two match the filter, so the cap is
not ignored under a name filter. -/
theorem sessions_cap_cex :
    (sessions ⟨[⟨0, "a", 0, TaskState.Started, 1⟩,
        ⟨1, "b", 1, TaskState.Started, 2⟩], 2⟩
      { tasks := ["a", "b"], count := 1 }).length = 1 ∧
    ((groupedSessions ⟨[⟨0, "a", 0, TaskState.Started, 1⟩,
        ⟨1, "b", 1, TaskState.Started, 2⟩], 2⟩
      { tasks := ["a", "b"], count := 1 }).filter
        (fun t => (["a", "b"] : List String).contains t.name)).length = 2 :=
  ⟨rfl, rfl⟩

/-- C9 amended: `sessions` ignores the result cap exactly when `all` is
set (returning the full, possibly name-filtered, grouped list); whenever
`all` is unset the returned list is capped at `count`, with or without a
name filter. -/
theorem sessions_cap_policy :
    (∀ (s : ShiftDb) (args : Config), args.all = true → args.tasks = [] →
        sessions s args = groupedSessions s args) ∧
    (∀ (s : ShiftDb) (args : Config), args.all = true → args.tasks ≠ [] →
        sessions s args =
          (groupedSessions s args).filter
            (fun t => args.tasks.contains t.name)) ∧
    (∀ (s : ShiftDb) (args : Config), args.all = false →
        (sessions s args).length ≤ args.count) := by
  refine ⟨?_, ?_, ?_⟩
  · intro s args hall htasks
    simp [sessions, htasks, hall]
  · intro s args hall htasks
    simp [sessions, htasks, hall]
  · intro s args hall
    simp only [sessions, hall, Bool.false_eq_true, if_false]
    split
    · rw [List.length_take]
      exact min_le_left _ _
    · rw [List.length_take]
      exact min_le_left _ _

/-- C9 witness: with `all` the full grouped list (optionally name-filtered)
is returned, and without `all` the result of a capped query is within the
cap. -/
theorem sessions_cap_policy_witness :
    sessions ⟨[⟨0, "a", 0, TaskState.Started, 1⟩], 1⟩ { all := true } =
      groupedSessions ⟨[⟨0, "a", 0, TaskState.Started, 1⟩], 1⟩ { all := true } ∧
    sessions ⟨[⟨0, "a", 0, TaskState.Started, 1⟩], 1⟩
        { tasks := ["a"], all := true } =
      (groupedSessions ⟨[⟨0, "a", 0, TaskState.Started, 1⟩], 1⟩
        { tasks := ["a"], all := true }).filter
          (fun t => (["a"] : List String).contains t.name) ∧
    (sessions ⟨[⟨0, "a", 0, TaskState.Started, 1⟩], 1⟩ { count := 1 }).length ≤ 1 :=
  ⟨sessions_cap_policy.1 _ _ rfl rfl,
    sessions_cap_policy.2.1 _ _ rfl (by simp),
    sessions_cap_policy.2.2 _ _ rfl⟩

/-- C7 counterexample: a `stop` that appends exactly one event, backdated to
share the timestamp of the existing `Started` event, is not reverted by
`undo`: the undo deletes both events and returns 2, leaving a state
different from the one before the stop. -/
theorem undo_after_command_cex :
    stop ⟨[⟨0, "a", 0, TaskState.Started, 5⟩], 1⟩ { stop_time := some 5 } 0 =
      Except.ok ⟨[⟨0, "a", 0, TaskState.Started, 5⟩,
        ⟨1, "a", 0, TaskState.Stopped, 5⟩], 2⟩ ∧
    undo ⟨[⟨0, "a", 0, TaskState.Started, 5⟩,
        ⟨1, "a", 0, TaskState.Stopped, 5⟩], 2⟩ = (⟨[], 2⟩, 2) :=
  ⟨rfl, rfl⟩

/-- C7 amended: provided a successful command's effective timestamp is
strictly later than every recorded event, and (for pause and resume) at
least one eligible candidate existed, running `undo` right after `start`,
`stop`, `pause` or `resume` restores the log exactly as it was before the
command and returns the number of events that command appended. -/
theorem undo_reverts_fresh :
    (∀ (s : ShiftDb) (name : String) (tOpt : Option Int) (now : Int)
        (e : TaskEvent) (s1 : ShiftDb),
        startCore s name tOpt now = Except.ok (e, s1) →
        (∀ ev ∈ s.log, ev.time < tOpt.getD now) →
        (undo s1).1.log = s.log ∧ (undo s1).2 = 1) ∧
    (∀ (s : ShiftDb) (args : StopOpts) (now : Int) (s1 : ShiftDb),
        stop s args now = Except.ok s1 →
        (∀ ev ∈ s.log, ev.time < args.stop_time.getD now) →
        (undo s1).1.log = s.log ∧
          (undo s1).2 + s.log.length = s1.log.length) ∧
    (∀ (s : ShiftDb) (args : Config) (now : Int) (s1 : ShiftDb),
        pause s args now = Except.ok s1 →
        (∀ ev ∈ s.log, ev.time < now) →
        (ongoing_sessions s.log).filter (fun ses => !ses.is_paused) ≠ [] →
        (undo s1).1.log = s.log ∧
          (undo s1).2 + s.log.length = s1.log.length) ∧
    (∀ (s : ShiftDb) (args : Config) (now : Int) (s1 : ShiftDb),
        resume s args now = Except.ok s1 →
        (∀ ev ∈ s.log, ev.time < now) →
        (ongoing_sessions s.log).filter (fun ses => ses.is_paused) ≠ [] →
        (undo s1).1.log = s.log ∧
          (undo s1).2 + s.log.length = s1.log.length) := by
  refine ⟨?_, ?_, ?_, ?_⟩
  · intro s name tOpt now e s1 h hfresh
    obtain ⟨he, hs1, _⟩ := startCore_ok h
    rw [hs1]
    rw [undo_append_fresh (List.cons_ne_nil e [])
      (fun ev hev => by rw [List.mem_singleton.mp hev, he]) hfresh]
    exact ⟨rfl, rfl⟩
  · intro s args now s1 h hfresh
    obtain ⟨sl, hne, hmem, hs1⟩ := stop_ok h
    rw [hs1]
    rw [undo_append_fresh (mkBatch_ne_nil hne)
      (fun ev hev => (mkBatch_time hev).1) hfresh]
    refine ⟨rfl, ?_⟩
    rw [List.length_append]
    exact Nat.add_comm _ _
  · intro s args now s1 h hfresh hcand
    obtain ⟨sl, hmem, hs1, hempty⟩ := pause_ok h
    have hne : sl ≠ [] := fun hnil => hcand (hempty hnil)
    rw [hs1]
    rw [undo_append_fresh (mkBatch_ne_nil hne)
      (fun ev hev => (mkBatch_time hev).1) hfresh]
    refine ⟨rfl, ?_⟩
    rw [List.length_append]
    exact Nat.add_comm _ _
  · intro s args now s1 h hfresh hcand
    obtain ⟨sl, hmem, hs1, hempty⟩ := resume_ok h
    have hne : sl ≠ [] := fun hnil => hcand (hempty hnil)
    rw [hs1]
    rw [undo_append_fresh (mkBatch_ne_nil hne)
      (fun ev hev => (mkBatch_time hev).1) hfresh]
    refine ⟨rfl, ?_⟩
    rw [List.length_append]
    exact Nat.add_comm _ _

/-- C7 witness: undo reverts a fresh start, a fresh single stop, a fresh
pause, and a fresh resume on concrete stores, returning the count of
appended events each time. -/
theorem undo_reverts_fresh_witness :
    ((undo ⟨[⟨0, "a", 0, TaskState.Started, 1⟩], 1⟩).1.log =
        ([] : List TaskEvent) ∧
      (undo ⟨[⟨0, "a", 0, TaskState.Started, 1⟩], 1⟩).2 = 1) ∧
    ((undo ⟨[⟨0, "a", 0, TaskState.Started, 0⟩,
        ⟨1, "a", 0, TaskState.Stopped, 5⟩], 2⟩).1.log =
        [⟨0, "a", 0, TaskState.Started, 0⟩] ∧
      (undo ⟨[⟨0, "a", 0, TaskState.Started, 0⟩,
        ⟨1, "a", 0, TaskState.Stopped, 5⟩], 2⟩).2 + 1 = 2) ∧
    ((undo ⟨[⟨0, "a", 0, TaskState.Started, 0⟩,
        ⟨1, "a", 0, TaskState.Paused, 5⟩], 2⟩).1.log =
        [⟨0, "a", 0, TaskState.Started, 0⟩] ∧
      (undo ⟨[⟨0, "a", 0, TaskState.Started, 0⟩,
        ⟨1, "a", 0, TaskState.Paused, 5⟩], 2⟩).2 + 1 = 2) ∧
    ((undo ⟨[⟨0, "a", 0, TaskState.Started, 0⟩,
        ⟨1, "a", 0, TaskState.Paused, 1⟩,
        ⟨2, "a", 0, TaskState.Resumed, 5⟩], 3⟩).1.log =
        [⟨0, "a", 0, TaskState.Started, 0⟩,
          ⟨1, "a", 0, TaskState.Paused, 1⟩] ∧
      (undo ⟨[⟨0, "a", 0, TaskState.Started, 0⟩,
        ⟨1, "a", 0, TaskState.Paused, 1⟩,
        ⟨2, "a", 0, TaskState.Resumed, 5⟩], 3⟩).2 + 2 = 3) :=
  ⟨undo_reverts_fresh.1 ⟨[], 0⟩ "a" none 1 ⟨0, "a", 0, TaskState.Started, 1⟩
      ⟨[⟨0, "a", 0, TaskState.Started, 1⟩], 1⟩ rfl
      (fun ev hev => absurd hev (List.not_mem_nil ev)),
    undo_reverts_fresh.2.1 ⟨[⟨0, "a", 0, TaskState.Started, 0⟩], 1⟩ {} 5
      ⟨[⟨0, "a", 0, TaskState.Started, 0⟩,
        ⟨1, "a", 0, TaskState.Stopped, 5⟩], 2⟩ rfl (by decide),
    undo_reverts_fresh.2.2.1 ⟨[⟨0, "a", 0, TaskState.Started, 0⟩], 1⟩ {} 5
      ⟨[⟨0, "a", 0, TaskState.Started, 0⟩,
        ⟨1, "a", 0, TaskState.Paused, 5⟩], 2⟩ rfl (by decide) (by decide),
    undo_reverts_fresh.2.2.2 ⟨[⟨0, "a", 0, TaskState.Started, 0⟩,
        ⟨1, "a", 0, TaskState.Paused, 1⟩], 2⟩ {} 5
      ⟨[⟨0, "a", 0, TaskState.Started, 0⟩,
        ⟨1, "a", 0, TaskState.Paused, 1⟩,
        ⟨2, "a", 0, TaskState.Resumed, 5⟩], 3⟩ rfl (by decide) (by decide)⟩

theorem ongoing_after_stop_single {log : List TaskEvent} {s1 : TaskSession}
    (h : ongoing_sessions log = [s1]) {e : TaskEvent}
    (hname : e.name = s1.name) (hsid : e.session = s1.id)
    (hst : e.state = TaskState.Stopped) :
    ongoing_sessions (log ++ [e]) = [] := by
  have hs1mem : s1 ∈ ongoing_sessions log := by
    rw [h]; exact List.mem_singleton.mpr rfl
  have hkey : (e.name, e.session) ∈ sessionKeys log := by
    rw [hname, hsid]; exact mem_ongoing_key hs1mem
  rw [ongoing_sessions, allSessions_append_existing hkey, List.filter_map,
    List.map_eq_nil_iff, List.filter_eq_nil_iff]
  intro sess hsess
  simp only [Function.comp_apply, Bool.not_eq_true']
  by_cases hc : sess.name = e.name ∧ sess.id = e.session
  · rw [if_pos hc, stoppedB_append_event, hst]
    simp
  · rw [if_neg hc]
    by_contra hstop
    have hmem : sess ∈ ongoing_sessions log := by
      refine List.mem_filter.mpr ⟨hsess, ?_⟩
      simp only [Bool.not_eq_true']
      exact hstop
    rw [h] at hmem
    have hss : sess = s1 := List.mem_singleton.mp hmem
    exact hc ⟨by rw [hss, hname], by rw [hss, hsid]⟩

/-- C8 counterexample: with two ongoing sessions, `switch` does not stop
them: the composed `stop` (called without the `all` flag) fails with
`MultipleSessions` and the command aborts before starting anything. -/
theorem switch_multiple_cex :
    switch ⟨[⟨0, "a", 0, TaskState.Started, 1⟩,
      ⟨1, "b", 1, TaskState.Started, 2⟩], 2⟩ "c" 5 =
      Except.error (Sum.inl (StopError.MultipleSessions (ongoing_sessions
        [⟨0, "a", 0, TaskState.Started, 1⟩,
          ⟨1, "b", 1, TaskState.Started, 2⟩]))) ∧
    (ongoing_sessions [⟨0, "a", 0, TaskState.Started, 1⟩,
      ⟨1, "b", 1, TaskState.Started, 2⟩]).length = 2 :=
  ⟨rfl, rfl⟩

/-- C8 amended: `switch` composes `stop` (no identifier, `all` left unset)
with `start` at one shared timestamp: with exactly one ongoing session it
appends its `Stopped` event and the new `Started` event, both at that
timestamp; with zero ongoing sessions it fails with `NoTasks`, and with two
or more it fails with `MultipleSessions` carrying the ongoing list, in both
cases before starting and appending nothing. -/
theorem switch_stop_start :
    (∀ (s : ShiftDb) (name : String) (now : Int) (s1 : TaskSession),
        ongoing_sessions s.log = [s1] →
        switch s name now = Except.ok
          ⟨s.log ++ [⟨s.nextId, s1.name, s1.id, TaskState.Stopped, now⟩,
            ⟨s.nextId + 1, name, s.nextId + 1, TaskState.Started, now⟩],
            s.nextId + 2⟩) ∧
    (∀ (s : ShiftDb) (name : String) (now : Int),
        ongoing_sessions s.log = [] →
        switch s name now = Except.error (Sum.inl StopError.NoTasks)) ∧
    (∀ (s : ShiftDb) (name : String) (now : Int),
        2 ≤ (ongoing_sessions s.log).length →
        switch s name now = Except.error (Sum.inl
          (StopError.MultipleSessions (ongoing_sessions s.log)))) := by
  refine ⟨?_, ?_, ?_⟩
  · intro s name now s1 h
    have hstop : stop s { uid := none, all := false, stop_time := some now }
        now = Except.ok ⟨s.log ++
          [⟨s.nextId, s1.name, s1.id, TaskState.Stopped, now⟩],
          s.nextId + 1⟩ := by
      simp [stop, h, mkBatch]
    have hongoing2 : ongoing_sessions (s.log ++
        [⟨s.nextId, s1.name, s1.id, TaskState.Stopped, now⟩]) = [] :=
      ongoing_after_stop_single h rfl rfl rfl
    simp only [switch, hstop]
    simp only [startCore, hongoing2]
    simp [List.append_assoc, TaskEvent.make]
  · intro s name now h
    simp [switch, stop, h]
  · intro s name now h2
    have hstop := stop_none_multiple s
      { uid := none, all := false, stop_time := some now } now rfl rfl h2
    simp [switch, hstop]

/-- C8 witness: switching from the single ongoing "a" to "c" stops "a" and
starts "c" at the shared timestamp; switching on an empty store fails with
`NoTasks`; switching with "a" and "d" both ongoing fails with
`MultipleSessions`. -/
theorem switch_stop_start_witness :
    switch ⟨[⟨0, "a", 0, TaskState.Started, 1⟩], 1⟩ "c" 5 =
      Except.ok ⟨[⟨0, "a", 0, TaskState.Started, 1⟩,
        ⟨1, "a", 0, TaskState.Stopped, 5⟩,
        ⟨2, "c", 2, TaskState.Started, 5⟩], 3⟩ ∧
    switch ⟨[], 0⟩ "c" 5 = Except.error (Sum.inl StopError.NoTasks) ∧
    switch ⟨[⟨0, "a", 0, TaskState.Started, 1⟩,
        ⟨1, "d", 1, TaskState.Started, 2⟩], 2⟩ "c" 5 =
      Except.error (Sum.inl (StopError.MultipleSessions (ongoing_sessions
        [⟨0, "a", 0, TaskState.Started, 1⟩,
          ⟨1, "d", 1, TaskState.Started, 2⟩]))) :=
  ⟨switch_stop_start.1 ⟨[⟨0, "a", 0, TaskState.Started, 1⟩], 1⟩ "c" 5
      ⟨0, "a", [⟨0, "a", 0, TaskState.Started, 1⟩]⟩ rfl,
    switch_stop_start.2.1 ⟨[], 0⟩ "c" 5 rfl,
    switch_stop_start.2.2 ⟨[⟨0, "a", 0, TaskState.Started, 1⟩,
      ⟨1, "d", 1, TaskState.Started, 2⟩], 2⟩ "c" 5 (by decide)⟩

/-- C1 counterexample: with backdated explicit timestamps the code itself
reaches a state with two ongoing sessions named "a": start "a" at time 1,
stop it at time 10, start "a" again at time 2, then `undo`, which deletes
the `Stopped` event (the log's maximum time) and resurrects the first
session alongside the second. -/
theorem one_ongoing_per_name_cex :
    startCore ⟨[], 0⟩ "a" (some 1) 0 =
      Except.ok (⟨0, "a", 0, TaskState.Started, 1⟩,
        ⟨[⟨0, "a", 0, TaskState.Started, 1⟩], 1⟩) ∧
    stop ⟨[⟨0, "a", 0, TaskState.Started, 1⟩], 1⟩ { stop_time := some 10 } 0 =
      Except.ok ⟨[⟨0, "a", 0, TaskState.Started, 1⟩,
        ⟨1, "a", 0, TaskState.Stopped, 10⟩], 2⟩ ∧
    startCore ⟨[⟨0, "a", 0, TaskState.Started, 1⟩,
        ⟨1, "a", 0, TaskState.Stopped, 10⟩], 2⟩ "a" (some 2) 0 =
      Except.ok (⟨2, "a", 2, TaskState.Started, 2⟩,
        ⟨[⟨0, "a", 0, TaskState.Started, 1⟩,
          ⟨1, "a", 0, TaskState.Stopped, 10⟩,
          ⟨2, "a", 2, TaskState.Started, 2⟩], 3⟩) ∧
    (undo ⟨[⟨0, "a", 0, TaskState.Started, 1⟩,
        ⟨1, "a", 0, TaskState.Stopped, 10⟩,
        ⟨2, "a", 2, TaskState.Started, 2⟩], 3⟩).1.log =
      [⟨0, "a", 0, TaskState.Started, 1⟩,
        ⟨2, "a", 2, TaskState.Started, 2⟩] ∧
    countOngoingNamed [⟨0, "a", 0, TaskState.Started, 1⟩,
      ⟨2, "a", 2, TaskState.Started, 2⟩] "a" = 2 :=
  ⟨rfl, rfl, rfl, rfl, rfl⟩

/-- C1 amended: `start(name)` while an ongoing session for `name` exists
always fails with `Ongoing` (the error path inserts nothing); and at most
one ongoing session per name holds at every state reachable when each
mutating command's effective timestamp strictly exceeds every recorded
event time, `undo` unrestricted. -/
theorem start_ongoing_and_invariant :
    (∀ (s : ShiftDb) (name : String) (tOpt : Option Int) (now : Int),
        0 < countOngoingNamed s.log name →
        startCore s name tOpt now = Except.error (StartError.Ongoing name)) ∧
    (∀ s : ShiftDb, Reachable s → ∀ n, countOngoingNamed s.log n ≤ 1) := by
  constructor
  · intro s name tOpt now h
    have hc : 0 < ((ongoing_sessions s.log).filter
        (fun ses => ses.name = name)).length := by
      rw [countOngoingNamed, List.countP_eq_length_filter] at h
      exact h
    simp only [startCore]
    rw [if_pos hc]
    rfl
  · intro s hr n
    exact (reachable_strong hr).2 0 n

/-- C1 witness: starting "a" while "a" is ongoing fails with `Ongoing`, and
the store reached by one fresh start of "a" has at most one ongoing "a". -/
theorem start_ongoing_and_invariant_witness :
    startCore ⟨[⟨0, "a", 0, TaskState.Started, 1⟩], 1⟩ "a" none 5 =
      Except.error (StartError.Ongoing "a") ∧
    countOngoingNamed [⟨0, "a", 0, TaskState.Started, 1⟩] "a" ≤ 1 :=
  ⟨start_ongoing_and_invariant.1 ⟨[⟨0, "a", 0, TaskState.Started, 1⟩], 1⟩
      "a" none 5 (by decide),
    start_ongoing_and_invariant.2 ⟨[⟨0, "a", 0, TaskState.Started, 1⟩], 1⟩
      (Reachable.step Reachable.init
        (Step.ofStart "a" (some 1) 0 ⟨0, "a", 0, TaskState.Started, 1⟩
          (fun ev hev => absurd hev (List.not_mem_nil ev)) rfl))
      "a"⟩

end Shift
